import Mathlib

/-!
# Verification of the pullke cache and search-aggregation core

Shallow embedding of the TTL cache layer (`packages/core/src/cache/index.ts`),
the cache-key derivation, the cache-or-fetch orchestrator, the multi-scope
repository-search aggregator (`packages/core/src/github/repositories/search.ts`)
and the pull-request query-string builder
(`packages/core/src/github/pull-requests/search.ts`).

JavaScript idioms are made explicit:
* `x || d` on numbers (`0` and `undefined` are falsy) is `jsOrNat`;
* `Array.prototype.sort` on strings is `jsSortStrings` (insertion sort under
  the lexicographic order; it both returns the sorted array and, in the
  source, mutates its argument — call sites thread the returned list wherever
  the source relies on the mutation);
* a `new Map(pairs)` built from a pair list keeps, for every key, the value of
  the *last* pair with that key, at the position of the key's *first*
  insertion (`mapInsert` / `jsMapOfList`);
* effects (the on-disk store, the remote search endpoint, clock time, cache
  write failures, fetch-call counting) are passed explicitly.
-/

namespace Pullke

/-- A repository record: the natural key `full_name` plus an opaque payload
standing for all remaining fields (`id`, `name`, `description`, ...). -/
structure Repository where
  full_name : String
  payload : Nat
  deriving DecidableEq, Repr

/-- JavaScript `x || d` for an optional number: `undefined` and `0` are falsy. -/
def jsOrNat : Option Nat → Nat → Nat
  | none, d => d
  | some n, d => if n = 0 then d else n

/-- JavaScript truthiness test for an optional number. -/
def jsTruthyNat : Option Nat → Bool
  | none => false
  | some n => n != 0

/-! ## Cache store (`cache/index.ts`) -/

/-- One persisted cache entry: `{ data, timestamp, ttl }` (timestamp in
milliseconds, ttl in seconds). -/
structure CacheEntry (α : Type) where
  data : α
  timestamp : Nat
  ttl : Nat
  deriving DecidableEq, Repr

/-- Runtime cache configuration (`cacheConfig`): the two family TTLs. -/
structure CacheConfig where
  repoTtl : Nat
  prTtl : Nat
  deriving DecidableEq, Repr

/-- The default configuration: repo TTL one week, PR TTL one day, in seconds. -/
def defaultConfig : CacheConfig :=
  { repoTtl := 7 * 24 * 60 * 60, prTtl := 24 * 60 * 60 }

/-- The cache directory: a map from (sanitized) file-name stems to entries. -/
def Store (α : Type) : Type := String → Option (CacheEntry α)

/-- An empty cache directory. -/
def emptyStore (α : Type) : Store α := fun _ => none

/-! String primitives, re-implemented by structural recursion on the
character list so that concrete instances evaluate inside the kernel
(the core `String.splitOn`, `startsWith`, `map`, `contains` use well-founded
recursion and do not reduce definitionally). -/

/-- A character that survives `sanitizeCacheKey` unchanged. -/
def isSafeChar (c : Char) : Bool :=
  decide (('a' ≤ c ∧ c ≤ 'z') ∨ ('A' ≤ c ∧ c ≤ 'Z') ∨ ('0' ≤ c ∧ c ≤ '9')
    ∨ c = '-' ∨ c = '_')

/-- `sanitizeCacheKey`: replace every character outside `[a-zA-Z0-9-_]`
with an underscore. -/
def sanitizeCacheKey (key : String) : String :=
  (key.data.map (fun c => if isSafeChar c then c else '_')).asString

/-- Character-list prefix test. -/
def isPrefixChars : List Char → List Char → Bool
  | _, [] => true
  | [], _ :: _ => false
  | c :: cs, p :: ps => decide (c = p) && isPrefixChars cs ps

/-- `s.startsWith(pre)`. -/
def strStartsWith (s pre : String) : Bool :=
  isPrefixChars s.data pre.data

/-- `s.split(',')` on the character list: splits at every comma. -/
def splitComma : List Char → List (List Char)
  | [] => [[]]
  | c :: cs =>
    match splitComma cs with
    | [] => [[]]
    | g :: gs => if c = ',' then [] :: g :: gs else (c :: g) :: gs

/-- `s.trim()`: strip leading and trailing whitespace characters. -/
def trimChars (l : List Char) : List Char :=
  ((l.dropWhile Char.isWhitespace).reverse.dropWhile Char.isWhitespace).reverse

/-- `s.trim()` on strings. -/
def jsTrim (s : String) : String :=
  (trimChars s.data).asString

/-- `getDefaultTtlForKey`: family-default TTL chosen by key prefix;
unknown families fall back to the repository TTL. -/
def getDefaultTtlForKey (cfg : CacheConfig) (key : String) : Nat :=
  if strStartsWith key "repos_" then cfg.repoTtl
  else if strStartsWith key "prs_" then cfg.prTtl
  else cfg.repoTtl

/-- `setCache(key, data, customTtl)` at time `now`: writes the entry under the
sanitized key with `ttl = customTtl || getDefaultTtlForKey(key)`, overwriting
any prior entry at that file. -/
def setCache {α : Type} (cfg : CacheConfig) (st : Store α) (key : String)
    (data : α) (customTtl : Option Nat) (now : Nat) : Store α :=
  let ttl := jsOrNat customTtl (getDefaultTtlForKey cfg key)
  fun k => if k = sanitizeCacheKey key then some ⟨data, now, ttl⟩ else st k

/-- `isCacheValid(key)` at time `now`: an entry exists at the sanitized key and
its age in whole seconds, `(now - timestamp) / 1000`, is below its ttl.
For an integer ttl this floor comparison agrees with the source's real-number
division. -/
def isCacheValid {α : Type} (st : Store α) (key : String) (now : Nat) : Bool :=
  match st (sanitizeCacheKey key) with
  | none => false
  | some e => decide ((now - e.timestamp) / 1000 < e.ttl)

/-- `getCache(key)` at time `now`: the stored data when the entry is valid,
`null` (here `none`) otherwise; read failures also surface as `none`. -/
def getCache {α : Type} (st : Store α) (key : String) (now : Nat) : Option α :=
  if isCacheValid st key now then
    (st (sanitizeCacheKey key)).map CacheEntry.data
  else none

/-! ## Cache key derivation (`cache/index.ts`) -/

/-- Lexicographic code-point comparison of character lists: the order
JavaScript's default `Array.prototype.sort()` applies to strings. -/
def lexLe : List Char → List Char → Bool
  | [], _ => true
  | _ :: _, [] => false
  | a :: as, b :: bs =>
    if a < b then true
    else if a = b then lexLe as bs
    else false

/-- The JavaScript string comparison as a proposition. -/
def jsLe (s t : String) : Prop := lexLe s.data t.data = true

instance : DecidableRel jsLe := fun s t => Bool.decEq (lexLe s.data t.data) true

/-- `Array.prototype.sort()` on an array of strings: sorts by the
lexicographic string order. The source's call both returns and mutates the
array; call sites of this embedding thread the returned list accordingly. -/
def jsSortStrings (l : List String) : List String :=
  l.insertionSort jsLe

/-- `keywords.split(',').map(k => k.trim()).filter(Boolean)`. -/
def splitTrimFilter (s : String) : List String :=
  (((splitComma s.data).map List.asString).map jsTrim).filter (fun t => t ≠ "")

/-- `generateRepoSearchCacheKey(organizations, keywords, includeCurrentUser)`.
Returns the key together with the sorted organization list, because the
source's `organizations.sort()` mutates the caller's array in place. -/
def generateRepoSearchCacheKey (organizations : List String)
    (keywords : Option String) (includeCurrentUser : Bool) :
    String × List String :=
  let sortedOrgs := jsSortStrings organizations
  let orgsKey := String.intercalate "," sortedOrgs
  let keywordsKey :=
    match keywords with
    | none => ""
    | some kw =>
      if kw = "" then ""
      else String.intercalate "," (jsSortStrings (splitTrimFilter kw))
  let userKey := if includeCurrentUser then "user" else ""
  ("repos_" ++ orgsKey ++ "_" ++ keywordsKey ++ "_" ++ userKey, sortedOrgs)

/-- The key component of `generateRepoSearchCacheKey`. -/
def repoSearchCacheKey (organizations : List String)
    (keywords : Option String) (includeCurrentUser : Bool) : String :=
  (generateRepoSearchCacheKey organizations keywords includeCurrentUser).1

/-! ## Cache-or-fetch orchestrator (`cache/index.ts`)

`getFromCacheOrFetch` wraps its whole body in one `try`; the `catch` calls
`fetchFn()` once more and returns that result.  The fetch operation is
modelled as `fetch : Nat → Except String α`, giving the outcome of the n-th
invocation (0-indexed), so invocation counts are observable; `writeFails`
says whether the `setCache` call inside the `try` throws. -/

/-- Result of `getFromCacheOrFetch`: the returned `{data, cached}` pair (or a
propagated error), the number of times `fetchFn` was invoked, and the store
afterwards. -/
structure FetchOutcome (α : Type) where
  result : Except String (α × Bool)
  calls : Nat
  store : Store α

/-- `getFromCacheOrFetch({key, fetchFn, customTtl})` at time `now`. -/
def getFromCacheOrFetch {α : Type} (cfg : CacheConfig) (writeFails : Bool)
    (fetch : Nat → Except String α) (st : Store α) (key : String)
    (customTtl : Option Nat) (now : Nat) : FetchOutcome α :=
  match getCache st key now with
  | some cachedData => ⟨Except.ok (cachedData, true), 0, st⟩
  | none =>
    match fetch 0 with
    | Except.ok freshData =>
      let ttlToUse := jsOrNat customTtl (getDefaultTtlForKey cfg key)
      if writeFails then
        -- `setCache` threw: the catch block fetches again and returns that.
        match fetch 1 with
        | Except.ok freshData2 => ⟨Except.ok (freshData2, false), 2, st⟩
        | Except.error e => ⟨Except.error e, 2, st⟩
      else
        ⟨Except.ok (freshData, false), 1,
          setCache cfg st key freshData (some ttlToUse) now⟩
    | Except.error _ =>
      -- `fetchFn` threw inside the `try`: the catch block fetches again.
      match fetch 1 with
      | Except.ok freshData2 => ⟨Except.ok (freshData2, false), 2, st⟩
      | Except.error e => ⟨Except.error e, 2, st⟩

/-! ## Deduplication by natural key (`repositories/search.ts` line 120)

`new Map(allRepos.map(repo => [repo.full_name, repo])).values()`:
a JavaScript `Map` keeps keys in first-insertion order and, on a repeated
`set`, overwrites the value in place. -/

/-- One `Map.prototype.set` step on an association list. -/
def mapInsert (m : List (String × Repository)) (k : String) (v : Repository) :
    List (String × Repository) :=
  if m.any (fun p => decide (p.1 = k)) then
    m.map (fun p => if p.1 = k then (k, v) else p)
  else m ++ [(k, v)]

/-- `new Map(l.map(r => [r.full_name, r]))` as an association list in
insertion order. -/
def jsMapOfList (l : List Repository) : List (String × Repository) :=
  l.foldl (fun m r => mapInsert m r.full_name r) []

/-- `Array.from(new Map(l.map(r => [r.full_name, r])).values())`. -/
def dedupByFullName (l : List Repository) : List Repository :=
  (jsMapOfList l).map Prod.snd

/-- Append a repository's `full_name` to a key list when not yet seen. -/
def seenStep (ks : List String) (r : Repository) : List String :=
  if ks.any (fun x => decide (x = r.full_name)) then ks else ks ++ [r.full_name]

/-- The distinct `full_name`s of a list, in first-seen order. -/
def firstSeenKeys (l : List Repository) : List String :=
  l.foldl seenStep []

/-- The last element of `l` with the given `full_name`, if any. -/
def lastOcc (l : List Repository) (k : String) : Option Repository :=
  (l.filter (fun r => decide (r.full_name = k))).getLast?

/-! ## Repository search aggregator (`repositories/search.ts`)

The remote endpoint (`octokit.rest.search.repos`) is modelled as
`remote : String → Nat → List Repository`, mapping a query string and a
1-indexed page number to that page's items. -/

/-- The fixed page size (`perPage = 100`). -/
def perPage : Nat := 100

/-- The `repos.length >= options.maxResults` break test, guarded by
JavaScript truthiness of `maxResults`. -/
def maxResultsReached (maxResults : Option Nat) (len : Nat) : Bool :=
  jsTruthyNat maxResults && decide ((jsOrNat maxResults 0) ≤ len)

/-- The pagination loop body of `searchRepositoriesInOrgOrUser`:
`rem` pages may still be fetched, `page` is the next page number, `repos`
the items accumulated so far.  Returns the accumulated items and the number
of page fetches performed. -/
def searchLoop (fetchPage : Nat → List Repository) (maxResults : Option Nat) :
    Nat → Nat → List Repository → List Repository × Nat
  | 0, _, repos => (repos, 0)
  | rem + 1, page, repos =>
    let pageRepos := fetchPage page
    let repos2 := repos ++ pageRepos
    if pageRepos.length < perPage then (repos2, 1)
    else if maxResultsReached maxResults repos2.length then (repos2, 1)
    else
      let r := searchLoop fetchPage maxResults rem (page + 1) repos2
      (r.1, r.2 + 1)

/-- `searchRepositoriesInOrgOrUser(octokit, query, options)` for one scope:
bounded pagination (`maxPages = options.maxPages || 10`), then the final
`slice(0, maxResults)` truncation when `maxResults` is truthy and exceeded.
Returns the scope's items and the number of page fetches. -/
def searchRepositoriesInOrgOrUser (fetchPage : Nat → List Repository)
    (maxPages : Option Nat) (maxResults : Option Nat) :
    List Repository × Nat :=
  let bound := jsOrNat maxPages 10
  let r := searchLoop fetchPage maxResults bound 1 []
  let repos := r.1
  let final :=
    if jsTruthyNat maxResults && decide ((jsOrNat maxResults 0) < repos.length)
    then repos.take (jsOrNat maxResults 0)
    else repos
  (final, r.2)

/-- The search options relevant to the repository path
(`SearchOptions` in `types/github`). -/
structure SearchOptions where
  organizations : List String
  keywords : Option String
  includeCurrentUser : Bool
  maxResults : Option Nat
  maxPages : Option Nat
  useCache : Option Bool
  cacheTtl : Option Nat
  deriving Repr

/-- The per-organization query built by `fetchRepositoriesFromGitHub`:
`org:<org>`, plus `(kw1 OR kw2 OR ...)` when the keyword string is truthy and
yields at least one token. -/
def buildOrgQuery (org : String) (keywords : Option String) : String :=
  let base := "org:" ++ org
  match keywords with
  | none => base
  | some kw =>
    if kw = "" then base
    else
      let keywordList := splitTrimFilter kw
      if 0 < keywordList.length then
        base ++ " (" ++ String.intercalate " OR " keywordList ++ ")"
      else base

/-- The concatenation `allRepos` accumulated by `fetchRepositoriesFromGitHub`
before deduplication: each organization scope in input order, then the
optional `user:@me` scope. -/
def allReposOf (remote : String → Nat → List Repository)
    (options : SearchOptions) : List Repository :=
  (options.organizations.map (fun org =>
      (searchRepositoriesInOrgOrUser (remote (buildOrgQuery org options.keywords))
        options.maxPages options.maxResults).1)).flatten
  ++ (if options.includeCurrentUser then
        (searchRepositoriesInOrgOrUser (remote "user:@me")
          options.maxPages options.maxResults).1
      else [])

/-- `fetchRepositoriesFromGitHub(options)`: concatenate all scopes, then
deduplicate by `full_name` via a JavaScript `Map`. -/
def fetchRepositoriesFromGitHub (remote : String → Nat → List Repository)
    (options : SearchOptions) : List Repository :=
  dedupByFullName (allReposOf remote options)

/-- The sequence of query strings issued by `fetchRepositoriesFromGitHub`,
in the order the per-organization fetch loop visits them. -/
def fetchQueries (options : SearchOptions) : List String :=
  options.organizations.map (fun org => buildOrgQuery org options.keywords)
  ++ (if options.includeCurrentUser then ["user:@me"] else [])

/-- The query order observed at the `searchRepositories` level:
with `useCache ?? true`, `generateRepoSearchCacheKey` runs first and its
in-place `organizations.sort()` mutates `options.organizations` before the
fetch closure reads it; with `useCache: false` no key is generated. -/
def searchRepositoriesFetchOrder (options : SearchOptions) : List String :=
  if options.useCache.getD true then
    let r := generateRepoSearchCacheKey options.organizations options.keywords
      options.includeCurrentUser
    fetchQueries { options with organizations := r.2 }
  else
    fetchQueries options

/-! ## Pull-request query builder (`pull-requests/search.ts`) -/

/-- The filter fields of `PullRequestSearchOptions` read by
`buildSearchQuery`.  A `none` models an absent (`undefined`) field; empty
strings and empty lists are falsy in the source's guards and are tested
explicitly below. -/
structure PullRequestSearchOptions where
  owner : String
  repo : String
  states : Option (List String)
  author : Option String
  assignee : Option String
  labels : Option (List String)
  dateFrom : Option String
  dateTo : Option String
  query : Option String
  deriving Repr

/-- `list.includes(x)` on strings. -/
def jsIncludes (l : List String) (x : String) : Bool :=
  l.any (fun s => s == x)

/-- The state clauses pushed by `buildSearchQuery`: membership tests in the
fixed order open, closed, merged, draft. -/
def stateQueriesOf (states : List String) : List String :=
  (if jsIncludes states "open" then ["is:open"] else [])
  ++ (if jsIncludes states "closed" then ["is:closed"] else [])
  ++ (if jsIncludes states "merged" then ["is:merged"] else [])
  ++ (if jsIncludes states "draft" then ["is:draft"] else [])

/-- A truthy optional string rendered through `f`, else nothing. -/
def clauseOfStr (s : Option String) (f : String → String) : List String :=
  match s with
  | none => []
  | some v => if v = "" then [] else [f v]

/-- `buildSearchQuery(options)`: space-joined clauses in the source's push
order. -/
def buildSearchQuery (o : PullRequestSearchOptions) : String :=
  let queryParts : List String :=
    ["repo:" ++ o.owner ++ "/" ++ o.repo, "is:pr"]
    ++ (match o.states with
        | none => []
        | some states =>
          if 0 < states.length && !(jsIncludes states "all") then
            let stateQueries := stateQueriesOf states
            if 1 < stateQueries.length then
              ["(" ++ String.intercalate " OR " stateQueries ++ ")"]
            else stateQueries
          else [])
    ++ clauseOfStr o.author (fun a => "author:" ++ a)
    ++ clauseOfStr o.assignee (fun a => "assignee:" ++ a)
    ++ (match o.labels with
        | none => []
        | some labels =>
          if 0 < labels.length then
            labels.map (fun label =>
              if label.data.any (fun c => decide (c = ' ')) then
                "label:\"" ++ label ++ "\""
              else "label:" ++ label)
          else [])
    ++ clauseOfStr o.dateFrom (fun d => "created:>=" ++ d)
    ++ clauseOfStr o.dateTo (fun d => "created:<=" ++ d)
    ++ clauseOfStr o.query (fun q => q)
  String.intercalate " " queryParts

/-! The spec's clause-by-clause reading of the query builder (§4.5): nine
clause groups in a fixed order.  These definitions follow the spec's words
and are compared with `buildSearchQuery` in the claim below. -/

/-- Spec §4.5: the scope clause. -/
def specScopeClause (o : PullRequestSearchOptions) : List String :=
  ["repo:" ++ o.owner ++ "/" ++ o.repo]

/-- Spec §4.5: the type clause. -/
def specTypeClause (_o : PullRequestSearchOptions) : List String :=
  ["is:pr"]

/-- Spec §4.5: the state clause — a parenthesized OR-group if more than one
state renders, bare if exactly one, omitted if the list is empty or contains
the sentinel `all`. -/
def specStateClause (o : PullRequestSearchOptions) : List String :=
  match o.states with
  | none => []
  | some states =>
    if 0 < states.length && !(jsIncludes states "all") then
      let qs := stateQueriesOf states
      if 1 < qs.length then ["(" ++ String.intercalate " OR " qs ++ ")"]
      else qs
    else []

/-- Spec §4.5: the label clauses — a label containing whitespace is quoted. -/
def specLabelClauses (o : PullRequestSearchOptions) : List String :=
  match o.labels with
  | none => []
  | some labels =>
    if 0 < labels.length then
      labels.map (fun label =>
        if label.data.any (fun c => decide (c = ' ')) then
          "label:\"" ++ label ++ "\""
        else "label:" ++ label)
    else []

/-- Spec §4.5: all clauses in the documented fixed order — scope, type,
state, author, assignee, label(s), date-from, date-to, free-text query. -/
def specClauseList (o : PullRequestSearchOptions) : List String :=
  specScopeClause o ++ specTypeClause o ++ specStateClause o
  ++ clauseOfStr o.author (fun a => "author:" ++ a)
  ++ clauseOfStr o.assignee (fun a => "assignee:" ++ a)
  ++ specLabelClauses o
  ++ clauseOfStr o.dateFrom (fun d => "created:>=" ++ d)
  ++ clauseOfStr o.dateTo (fun d => "created:<=" ++ d)
  ++ clauseOfStr o.query (fun q => q)

/-! ## Concrete inputs used by counterexamples and witnesses -/

/-- Two organization scopes returning the same `full_name` with different
payloads (page 1 only). -/
def remoteC1 : String → Nat → List Repository := fun q page =>
  if page = 1 then
    if q = "org:a" then [⟨"shared/r", 0⟩]
    else if q = "org:b" then [⟨"shared/r", 1⟩]
    else []
  else []

/-- Options: organizations `a` and `b`, nothing else set. -/
def optsC1 : SearchOptions :=
  { organizations := ["a", "b"], keywords := none, includeCurrentUser := false,
    maxResults := none, maxPages := none, useCache := none, cacheTtl := none }

/-- Two organization scopes returning disjoint single repositories. -/
def remoteC4 : String → Nat → List Repository := fun q page =>
  if page = 1 then
    if q = "org:a" then [⟨"a/r", 0⟩]
    else if q = "org:b" then [⟨"b/r", 0⟩]
    else []
  else []

/-- Options: organizations `a` and `b`, no keywords, `maxResults = 1`. -/
def optsC4 : SearchOptions :=
  { organizations := ["a", "b"], keywords := none, includeCurrentUser := false,
    maxResults := some 1, maxPages := none, useCache := none, cacheTtl := none }

/-- A backend whose every page is full (100 copies of one repository). -/
def fullPageFetcher : Nat → List Repository := fun _ =>
  List.replicate perPage ⟨"x/full", 0⟩

/-- A fetch operation that returns its own invocation index, so the returned
data identifies which invocation produced it. -/
def countingFetch : Nat → Except String Nat := fun n => Except.ok n

/-- A fetch operation that always succeeds with the value 42. -/
def constFetch : Nat → Except String Nat := fun _ => Except.ok 42

/-- The spec's worked example filter set. -/
def optsC9 : PullRequestSearchOptions :=
  { owner := "o", repo := "r", states := some ["open", "draft"],
    author := some "u", assignee := none,
    labels := some ["bug", "needs review"], dateFrom := none, dateTo := none,
    query := none }

/-- Caller input for the sort-mutation witness: organizations out of order. -/
def optsC10 : SearchOptions :=
  { organizations := ["b", "a"], keywords := none, includeCurrentUser := false,
    maxResults := none, maxPages := none, useCache := none, cacheTtl := none }

/-! ## General lemmas -/

/-- A nonzero number passes `x || d` unchanged. -/
theorem jsOrNat_some_of_ne (n d : Nat) (h : n ≠ 0) : jsOrNat (some n) d = n := by
  simp [jsOrNat, h]

/-! ## Lemmas about the deduplication step -/

theorem lastOcc_concat (l : List Repository) (r : Repository) (k : String) :
    lastOcc (l ++ [r]) k = if r.full_name = k then some r else lastOcc l k := by
  unfold lastOcc
  rw [List.filter_append]
  by_cases h : r.full_name = k
  · simp [h]
  · simp [h]

theorem any_map_general {α β : Type} (f : α → β) (p : β → Bool) :
    ∀ l : List α, (l.map f).any p = l.any (fun a => p (f a))
  | [] => rfl
  | a :: l => by
    simp only [List.map_cons, List.any_cons, any_map_general f p l]

theorem jsMapOfList_concat (l : List Repository) (r : Repository) :
    jsMapOfList (l ++ [r]) = mapInsert (jsMapOfList l) r.full_name r := by
  unfold jsMapOfList
  rw [List.foldl_append]
  rfl

theorem firstSeenKeys_concat (l : List Repository) (r : Repository) :
    firstSeenKeys (l ++ [r]) = seenStep (firstSeenKeys l) r := by
  unfold firstSeenKeys
  rw [List.foldl_append]
  rfl

/-- The central invariant of the JavaScript-`Map` dedup: the keys of
`jsMapOfList l` are the distinct `full_name`s in first-seen order, and each
key is mapped to the LAST element of `l` bearing it. -/
theorem jsMapOfList_spec (l : List Repository) :
    (jsMapOfList l).map Prod.fst = firstSeenKeys l ∧
    ∀ p ∈ jsMapOfList l, p.2.full_name = p.1 ∧ lastOcc l p.1 = some p.2 := by
  induction l using List.reverseRecOn with
  | nil => exact ⟨rfl, by simp [jsMapOfList]⟩
  | append_singleton l r ih =>
    obtain ⟨hkeys, hvals⟩ := ih
    rw [jsMapOfList_concat, firstSeenKeys_concat]
    unfold mapInsert seenStep
    have hany : ((jsMapOfList l).any fun p => decide (p.1 = r.full_name))
        = ((firstSeenKeys l).any fun x => decide (x = r.full_name)) := by
      rw [← hkeys, any_map_general]
    by_cases hc : ((jsMapOfList l).any fun p => decide (p.1 = r.full_name)) = true
    · rw [if_pos hc, if_pos (hany ▸ hc)]
      constructor
      · rw [List.map_map, ← hkeys]
        apply List.map_congr_left
        intro p _
        by_cases hp : p.1 = r.full_name
        · simp [hp]
        · simp [hp]
      · intro p hp
        rw [List.mem_map] at hp
        obtain ⟨q, hq, hgq⟩ := hp
        by_cases hqk : q.1 = r.full_name
        · rw [if_pos hqk] at hgq
          subst hgq
          refine ⟨rfl, ?_⟩
          rw [lastOcc_concat, if_pos rfl]
        · rw [if_neg hqk] at hgq
          subst hgq
          obtain ⟨h1, h2⟩ := hvals q hq
          refine ⟨h1, ?_⟩
          rw [lastOcc_concat, if_neg (fun h => hqk h.symm)]
          exact h2
    · rw [if_neg hc, if_neg (hany ▸ hc)]
      have hnotmem : ∀ q ∈ jsMapOfList l, q.1 ≠ r.full_name := by
        intro q hq hqeq
        exact hc (List.any_eq_true.mpr ⟨q, hq, by simp [hqeq]⟩)
      constructor
      · rw [List.map_append, hkeys]
        rfl
      · intro p hp
        rcases List.mem_append.mp hp with hin | hsing
        · obtain ⟨h1, h2⟩ := hvals p hin
          refine ⟨h1, ?_⟩
          rw [lastOcc_concat, if_neg (fun h => hnotmem p hin h.symm)]
          exact h2
        · rw [List.mem_singleton] at hsing
          subst hsing
          refine ⟨rfl, ?_⟩
          rw [lastOcc_concat, if_pos rfl]

theorem firstSeenKeys_nodup (l : List Repository) : (firstSeenKeys l).Nodup := by
  induction l using List.reverseRecOn with
  | nil => exact List.nodup_nil
  | append_singleton l r ih =>
    rw [firstSeenKeys_concat]
    unfold seenStep
    by_cases hc : ((firstSeenKeys l).any fun x => decide (x = r.full_name)) = true
    · rw [if_pos hc]; exact ih
    · rw [if_neg hc]
      have hnm : r.full_name ∉ firstSeenKeys l := by
        intro hmem
        exact hc (List.any_eq_true.mpr ⟨r.full_name, hmem, by simp⟩)
      simp [List.nodup_append, ih, hnm]

theorem seenStep_length_le (ks : List String) (r : Repository) :
    (seenStep ks r).length ≤ ks.length + 1 := by
  unfold seenStep
  by_cases hc : (ks.any fun x => decide (x = r.full_name)) = true
  · rw [if_pos hc]; omega
  · rw [if_neg hc]; simp

theorem foldl_seenStep_length_le (l : List Repository) :
    ∀ ks : List String, (l.foldl seenStep ks).length ≤ ks.length + l.length := by
  induction l with
  | nil => intro ks; simp
  | cons r l ih =>
    intro ks
    calc ((r :: l).foldl seenStep ks).length
        = (l.foldl seenStep (seenStep ks r)).length := rfl
      _ ≤ (seenStep ks r).length + l.length := ih _
      _ ≤ (ks.length + 1) + l.length := by
            have := seenStep_length_le ks r; omega
      _ = ks.length + (r :: l).length := by simp; omega

theorem length_dedupByFullName_le (l : List Repository) :
    (dedupByFullName l).length ≤ l.length := by
  have h1 : (dedupByFullName l).length = (firstSeenKeys l).length := by
    calc (dedupByFullName l).length
        = (jsMapOfList l).length := by unfold dedupByFullName; rw [List.length_map]
      _ = ((jsMapOfList l).map Prod.fst).length := by rw [List.length_map]
      _ = (firstSeenKeys l).length := by rw [(jsMapOfList_spec l).1]
  rw [h1]
  have := foldl_seenStep_length_le l []
  simpa [firstSeenKeys] using this

/-! ## C1 -/

/-- C1, counterexample: two scopes contribute items with the same
`full_name` `shared/r` but different payloads; the aggregate retains the
SECOND scope's item, not the first occurrence the claim requires. -/
theorem C1_counterexample :
    fetchRepositoriesFromGitHub remoteC1 optsC1 = [⟨"shared/r", 1⟩] ∧
    (⟨"shared/r", 1⟩ : Repository) ≠ ⟨"shared/r", 0⟩ := by
  constructor
  · rfl
  · decide

/-- C1, amended: the aggregate produced by `fetchRepositoriesFromGitHub`
contains exactly one item per distinct `full_name` (its key list is
duplicate-free), the keys appear in first-seen order (earlier-listed
organizations fix the position), but the item retained for a duplicated
`full_name` is the LAST occurrence, i.e. the one contributed by the scope
listed later in the input. -/
theorem C1_amended_dedup (remote : String → Nat → List Repository)
    (options : SearchOptions) :
    ((fetchRepositoriesFromGitHub remote options).map Repository.full_name).Nodup ∧
    (fetchRepositoriesFromGitHub remote options).map Repository.full_name
      = firstSeenKeys (allReposOf remote options) ∧
    ∀ r ∈ fetchRepositoriesFromGitHub remote options,
      lastOcc (allReposOf remote options) r.full_name = some r := by
  obtain ⟨hkeys, hvals⟩ := jsMapOfList_spec (allReposOf remote options)
  have hmap : (fetchRepositoriesFromGitHub remote options).map Repository.full_name
      = (jsMapOfList (allReposOf remote options)).map Prod.fst := by
    unfold fetchRepositoriesFromGitHub dedupByFullName
    rw [List.map_map]
    apply List.map_congr_left
    intro p hp
    exact (hvals p hp).1
  refine ⟨?_, ?_, ?_⟩
  · rw [hmap, hkeys]
    exact firstSeenKeys_nodup _
  · rw [hmap, hkeys]
  · intro r hr
    unfold fetchRepositoriesFromGitHub dedupByFullName at hr
    rw [List.mem_map] at hr
    obtain ⟨p, hp, hpr⟩ := hr
    obtain ⟨h1, h2⟩ := hvals p hp
    rw [← hpr, h1]
    exact h2

/-- C1, witness: the amended theorem applied at the concrete duplicated
input — the retained item is the last occurrence of its `full_name`. -/
theorem C1_witness :
    lastOcc (allReposOf remoteC1 optsC1)
        (Repository.full_name ⟨"shared/r", 1⟩)
      = some ⟨"shared/r", 1⟩ :=
  (C1_amended_dedup remoteC1 optsC1).2.2 ⟨"shared/r", 1⟩ (by decide)

/-! ## C4 -/

/-- A truthy `maxResults = m` caps each single scope's item list at `m`
(the `slice(0, maxResults)` at the end of `searchRepositoriesInOrgOrUser`). -/
theorem scope_length_le (fetchPage : Nat → List Repository) (mp : Option Nat)
    (m : Nat) (h0 : m ≠ 0) :
    ((searchRepositoriesInOrgOrUser fetchPage mp (some m)).1).length ≤ m := by
  have hm' : jsOrNat (some m) 0 = m := by simp [jsOrNat, h0]
  have ht : jsTruthyNat (some m) = true := by simp [jsTruthyNat, h0]
  unfold searchRepositoriesInOrgOrUser
  simp only [hm', ht, Bool.true_and]
  set repos := (searchLoop fetchPage (some m) (jsOrNat mp 10) 1 []).1
  by_cases h : m < repos.length
  · rw [if_pos (by simpa using h)]
    simp [List.length_take]
  · rw [if_neg (by simpa using h)]
    omega

/-- C4, counterexample: with organizations `a` and `b` each contributing one
distinct repository and `maxResults = 1`, the aggregate has 2 items — the cap
is NOT applied to the deduplicated aggregate list. -/
theorem C4_counterexample :
    (fetchRepositoriesFromGitHub remoteC4 optsC4).length = 2 ∧
    optsC4.maxResults = some 1 ∧
    ¬((fetchRepositoriesFromGitHub remoteC4 optsC4).length ≤ 1) := by
  refine ⟨rfl, rfl, ?_⟩
  intro h
  have : (fetchRepositoriesFromGitHub remoteC4 optsC4).length = 2 := rfl
  omega

/-- C4, amended: a truthy `maxResults = m` is applied per scope, before
aggregation and deduplication — every scope contributes at most `m` items,
so the final deduplicated list is bounded by `m` times the number of scopes
(organizations plus the optional user scope), not by `m` itself. -/
theorem C4_amended_per_scope_cap (remote : String → Nat → List Repository)
    (options : SearchOptions) (m : Nat)
    (hm : options.maxResults = some m) (h0 : m ≠ 0) :
    (∀ fetchPage,
      ((searchRepositoriesInOrgOrUser fetchPage options.maxPages
          options.maxResults).1).length ≤ m) ∧
    (fetchRepositoriesFromGitHub remote options).length ≤
      (options.organizations.length
        + (if options.includeCurrentUser then 1 else 0)) * m := by
  have hscope : ∀ fetchPage : Nat → List Repository,
      ((searchRepositoriesInOrgOrUser fetchPage options.maxPages
          options.maxResults).1).length ≤ m := by
    intro fp
    rw [hm]
    exact scope_length_le fp _ m h0
  refine ⟨hscope, ?_⟩
  have hdedup := length_dedupByFullName_le (allReposOf remote options)
  have hall : (allReposOf remote options).length ≤
      (options.organizations.length
        + (if options.includeCurrentUser then 1 else 0)) * m := by
    unfold allReposOf
    rw [List.length_append]
    have h1 : ((options.organizations.map (fun org =>
        (searchRepositoriesInOrgOrUser
          (remote (buildOrgQuery org options.keywords))
          options.maxPages options.maxResults).1)).flatten).length
        ≤ options.organizations.length * m := by
      rw [List.length_flatten, List.map_map]
      have hb : ∀ x ∈ options.organizations.map ((fun l : List Repository => l.length) ∘ (fun org =>
          (searchRepositoriesInOrgOrUser
            (remote (buildOrgQuery org options.keywords))
            options.maxPages options.maxResults).1)), x ≤ m := by
        intro x hx
        rw [List.mem_map] at hx
        obtain ⟨org, _, hxeq⟩ := hx
        rw [← hxeq]
        exact hscope _
      have := List.sum_le_card_nsmul _ m hb
      simpa [List.length_map, smul_eq_mul] using this
    have h2 : (if options.includeCurrentUser then
        (searchRepositoriesInOrgOrUser (remote "user:@me")
          options.maxPages options.maxResults).1
      else []).length ≤ (if options.includeCurrentUser then 1 else 0) * m := by
      by_cases hu : options.includeCurrentUser
      · simp only [if_pos hu, one_mul]
        exact hscope _
      · simp [if_neg hu]
    calc _ ≤ options.organizations.length * m
            + (if options.includeCurrentUser then 1 else 0) * m :=
          Nat.add_le_add h1 h2
      _ = _ := by rw [Nat.add_mul]
  exact le_trans hdedup hall

/-- C4, witness: the amended bound at the concrete two-organization input. -/
theorem C4_witness :
    (fetchRepositoriesFromGitHub remoteC4 optsC4).length ≤
      (optsC4.organizations.length
        + (if optsC4.includeCurrentUser then 1 else 0)) * 1 :=
  (C4_amended_per_scope_cap remoteC4 optsC4 1 rfl (by decide)).2

/-! ## C6 -/

/-- The pagination loop never performs more fetches than pages remain. -/
theorem searchLoop_calls_le (fetchPage : Nat → List Repository)
    (mr : Option Nat) :
    ∀ rem page repos, (searchLoop fetchPage mr rem page repos).2 ≤ rem := by
  intro rem
  induction rem with
  | zero => intro page repos; simp [searchLoop]
  | succ n ih =>
    intro page repos
    unfold searchLoop
    by_cases h1 : (fetchPage page).length < perPage
    · rw [if_pos h1]
      omega
    · rw [if_neg h1]
      by_cases h2 : maxResultsReached mr (repos ++ fetchPage page).length = true
      · rw [if_pos h2]
        omega
      · rw [if_neg h2]
        exact Nat.succ_le_succ (ih (page + 1) (repos ++ fetchPage page))

/-- One unfolding of the pagination loop. -/
theorem searchLoop_step (f : Nat → List Repository) (mr : Option Nat)
    (rem page : Nat) (repos : List Repository) :
    searchLoop f mr (rem + 1) page repos =
      if (f page).length < perPage then (repos ++ f page, 1)
      else if maxResultsReached mr (repos ++ f page).length then
        (repos ++ f page, 1)
      else ((searchLoop f mr rem (page + 1) (repos ++ f page)).1,
            (searchLoop f mr rem (page + 1) (repos ++ f page)).2 + 1) := rfl

/-- `jsOrNat mp 10` (the effective `maxPages`) is always positive. -/
theorem jsOrNat_pos (mp : Option Nat) : 0 < jsOrNat mp 10 := by
  cases mp with
  | none => simp [jsOrNat]
  | some n =>
    by_cases h : n = 0
    · simp [jsOrNat, h]
    · simp only [jsOrNat, if_neg h]
      omega

/-- With a backend whose pages are all full, a 2-page loop performs 1 fetch
when the `maxResults` break fires after page 1, else 2 fetches. -/
theorem searchLoop_two_full (fetchPage : Nat → List Repository)
    (mr : Option Nat) (hfull : ∀ p, (fetchPage p).length = perPage) :
    (searchLoop fetchPage mr 2 1 []).2
      = if maxResultsReached mr perPage = true then 1 else 2 := by
  have h1 : ¬ ((fetchPage 1).length < perPage) := by rw [hfull 1]; omega
  have h2 : ¬ ((fetchPage 2).length < perPage) := by rw [hfull 2]; omega
  rw [show (2 : Nat) = 1 + 1 from rfl, searchLoop_step, if_neg h1,
    List.nil_append]
  rw [hfull 1]
  by_cases hr : maxResultsReached mr perPage = true
  · rw [if_pos hr, if_pos hr]
  · rw [if_neg hr, if_neg hr]
    have hinner : (searchLoop fetchPage mr 1 2 (fetchPage 1)).2 = 1 := by
      rw [show (1 : Nat) = 0 + 1 from rfl, searchLoop_step, if_neg h2]
      by_cases hx : maxResultsReached mr (fetchPage 1 ++ fetchPage 2).length = true
      · rw [if_pos hx]
      · rw [if_neg hx]
        rfl
    rw [hinner]

/-- C6, counterexample: full pages and `maxPages = 2`, but `maxResults = 50`
(smaller than one page): the loop performs exactly 1 page fetch, not 2 —
the `maxResults` break fires after the first full page. -/
theorem C6_counterexample :
    (searchRepositoriesInOrgOrUser fullPageFetcher (some 2) (some 50)).2 = 1 ∧
    (1 : Nat) ≠ 2 := by
  constructor
  · rfl
  · decide

/-- C6, amended: with every page full and `maxPages = 2`, the loop performs
at most 2 page fetches (never a 3rd); exactly 2 when the `maxResults` break
cannot fire after one full page (`maxResults` unset, zero, or above the page
size), but exactly 1 when a truthy `maxResults` is at most one page.  In
general the fetch count never exceeds the `maxPages || 10` ceiling, and a
short first page always stops the loop after a single fetch. -/
theorem C6_amended_pagination (fetchPage : Nat → List Repository)
    (mr : Option Nat) (hfull : ∀ p, (fetchPage p).length = perPage) :
    (searchRepositoriesInOrgOrUser fetchPage (some 2) mr).2 ≤ 2 ∧
    (maxResultsReached mr perPage = false →
      (searchRepositoriesInOrgOrUser fetchPage (some 2) mr).2 = 2) ∧
    (maxResultsReached mr perPage = true →
      (searchRepositoriesInOrgOrUser fetchPage (some 2) mr).2 = 1) ∧
    (∀ mp, (searchRepositoriesInOrgOrUser fetchPage mp mr).2 ≤ jsOrNat mp 10) ∧
    (∀ g : Nat → List Repository, (g 1).length < perPage →
      ∀ mp, (searchRepositoriesInOrgOrUser g mp mr).2 = 1) := by
  have hcalls : (searchRepositoriesInOrgOrUser fetchPage (some 2) mr).2
      = (searchLoop fetchPage mr 2 1 []).2 := rfl
  have key := searchLoop_two_full fetchPage mr hfull
  refine ⟨?_, ?_, ?_, ?_, ?_⟩
  · rw [hcalls, key]
    split <;> omega
  · intro h
    rw [hcalls, key, h]
    simp
  · intro h
    rw [hcalls, key, h]
    simp
  · intro mp
    exact searchLoop_calls_le fetchPage mr _ 1 []
  · intro g hg mp
    have hpos := jsOrNat_pos mp
    obtain ⟨k, hk⟩ : ∃ k, jsOrNat mp 10 = k + 1 := ⟨jsOrNat mp 10 - 1, by omega⟩
    show (searchLoop g mr (jsOrNat mp 10) 1 []).2 = 1
    rw [hk, searchLoop_step, if_pos hg]

/-- C6, witness: the amended theorem at the concrete full-page backend with
no `maxResults`: exactly 2 fetches. -/
theorem C6_witness :
    (searchRepositoriesInOrgOrUser fullPageFetcher (some 2) none).2 = 2 :=
  (C6_amended_pagination fullPageFetcher none
      (fun _ => by simp [fullPageFetcher])).2.1 rfl

/-! ## C2 -/

/-- C2, counterexample: on a cache miss with a succeeding fetch but a failing
cache write, `fetchFn` is invoked twice (not once), and the value returned is
the one produced by the SECOND invocation. -/
theorem C2_counterexample :
    (getFromCacheOrFetch defaultConfig true countingFetch
      (emptyStore Nat) "k" none 0).calls = 2 ∧
    (getFromCacheOrFetch defaultConfig true countingFetch
      (emptyStore Nat) "k" none 0).result = Except.ok (1, false) :=
  ⟨rfl, rfl⟩

/-- C2, amended: on a cache miss, when the fetch succeeds and the cache write
succeeds, `fetchFn` runs exactly once and its data is returned with
`cached: false`; but when the cache write fails — or the first fetch itself
fails — the surrounding catch block invokes `fetchFn` a SECOND time and
returns (or propagates) that second invocation's outcome. -/
theorem C2_amended_catch_refetches {α : Type} (cfg : CacheConfig)
    (writeFails : Bool) (fetch : Nat → Except String α) (st : Store α)
    (key : String) (customTtl : Option Nat) (now : Nat)
    (hmiss : getCache st key now = none) :
    (writeFails = false → ∀ v, fetch 0 = Except.ok v →
      (getFromCacheOrFetch cfg writeFails fetch st key customTtl now).result
          = Except.ok (v, false) ∧
      (getFromCacheOrFetch cfg writeFails fetch st key customTtl now).calls
          = 1) ∧
    (writeFails = true → ∀ v, fetch 0 = Except.ok v →
      (getFromCacheOrFetch cfg writeFails fetch st key customTtl now).calls
          = 2 ∧
      (getFromCacheOrFetch cfg writeFails fetch st key customTtl now).result
          = (fetch 1).map (fun d => (d, false))) ∧
    (∀ e, fetch 0 = Except.error e →
      (getFromCacheOrFetch cfg writeFails fetch st key customTtl now).calls
          = 2 ∧
      (getFromCacheOrFetch cfg writeFails fetch st key customTtl now).result
          = (fetch 1).map (fun d => (d, false))) := by
  refine ⟨?_, ?_, ?_⟩
  · rintro rfl v hv
    simp [getFromCacheOrFetch, hmiss, hv]
  · rintro rfl v hv
    cases hf1 : fetch 1 with
    | ok w => simp [getFromCacheOrFetch, hmiss, hv, hf1, Except.map]
    | error e => simp [getFromCacheOrFetch, hmiss, hv, hf1, Except.map]
  · intro e he
    cases hf1 : fetch 1 with
    | ok w => simp [getFromCacheOrFetch, hmiss, he, hf1, Except.map]
    | error e2 => simp [getFromCacheOrFetch, hmiss, he, hf1, Except.map]

/-- C2, witness: the happy path (miss, fetch ok, write ok) at a concrete
input: one invocation, data returned with `cached: false`. -/
theorem C2_witness :
    (getFromCacheOrFetch defaultConfig false countingFetch
      (emptyStore Nat) "k" none 0).result = Except.ok (0, false) ∧
    (getFromCacheOrFetch defaultConfig false countingFetch
      (emptyStore Nat) "k" none 0).calls = 1 :=
  (C2_amended_catch_refetches defaultConfig false countingFetch
    (emptyStore Nat) "k" none 0 rfl).1 rfl 0 rfl

/-! ## C3 -/

/-- C3, confirmed: a miss-then-hit pair of sequential calls.  The first call
(at `t0`) fetches once, returns the data with `cached: false` and writes the
entry; the second call (at `t1`, within the entry's TTL) returns the same
data with `cached: true` and performs no fetch at all — `fetchFn` runs
exactly once in total. -/
theorem C3_confirmed_single_fetch {α : Type} (cfg : CacheConfig)
    (fetch fetch2 : Nat → Except String α) (st : Store α) (key : String)
    (customTtl : Option Nat) (t0 t1 : Nat) (v : α)
    (hmiss : getCache st key t0 = none)
    (hfetch : fetch 0 = Except.ok v)
    (hfresh : (t1 - t0) / 1000
      < jsOrNat customTtl (getDefaultTtlForKey cfg key)) :
    (getFromCacheOrFetch cfg false fetch st key customTtl t0).result
        = Except.ok (v, false) ∧
    (getFromCacheOrFetch cfg false fetch st key customTtl t0).calls = 1 ∧
    (getFromCacheOrFetch cfg false fetch2
        (getFromCacheOrFetch cfg false fetch st key customTtl t0).store
        key customTtl t1).result = Except.ok (v, true) ∧
    (getFromCacheOrFetch cfg false fetch2
        (getFromCacheOrFetch cfg false fetch st key customTtl t0).store
        key customTtl t1).calls = 0 := by
  have hT : jsOrNat customTtl (getDefaultTtlForKey cfg key) ≠ 0 := by omega
  have hsome := jsOrNat_some_of_ne
    (jsOrNat customTtl (getDefaultTtlForKey cfg key))
    (getDefaultTtlForKey cfg key) hT
  have hout : getFromCacheOrFetch cfg false fetch st key customTtl t0
      = ⟨Except.ok (v, false), 1,
          setCache cfg st key v
            (some (jsOrNat customTtl (getDefaultTtlForKey cfg key))) t0⟩ := by
    simp [getFromCacheOrFetch, hmiss, hfetch]
  have hst1 : (getFromCacheOrFetch cfg false fetch st key customTtl t0).store
        (sanitizeCacheKey key)
      = some ⟨v, t0, jsOrNat customTtl (getDefaultTtlForKey cfg key)⟩ := by
    rw [hout]
    show setCache cfg st key v
        (some (jsOrNat customTtl (getDefaultTtlForKey cfg key))) t0
        (sanitizeCacheKey key) = _
    unfold setCache
    rw [hsome, if_pos rfl]
  have hvalid :
      isCacheValid
        (getFromCacheOrFetch cfg false fetch st key customTtl t0).store
        key t1 = true := by
    unfold isCacheValid
    rw [hst1]
    simpa using hfresh
  have hget :
      getCache (getFromCacheOrFetch cfg false fetch st key customTtl t0).store
        key t1 = some v := by
    unfold getCache
    rw [if_pos hvalid, hst1]
    rfl
  refine ⟨by rw [hout], by rw [hout], ?_, ?_⟩ <;>
  · generalize hS :
      (getFromCacheOrFetch cfg false fetch st key customTtl t0).store = S
        at hget ⊢
    simp [getFromCacheOrFetch, hget]

/-- C3, witness: the miss-then-hit pair at a concrete key and clock. -/
theorem C3_witness :
    (getFromCacheOrFetch defaultConfig false constFetch (emptyStore Nat)
      "repos_k" none 0).calls = 1 ∧
    (getFromCacheOrFetch defaultConfig false countingFetch
      (getFromCacheOrFetch defaultConfig false constFetch (emptyStore Nat)
        "repos_k" none 0).store "repos_k" none 1000).result
      = Except.ok (42, true) ∧
    (getFromCacheOrFetch defaultConfig false countingFetch
      (getFromCacheOrFetch defaultConfig false constFetch (emptyStore Nat)
        "repos_k" none 0).store "repos_k" none 1000).calls = 0 :=
  ⟨(C3_confirmed_single_fetch defaultConfig constFetch countingFetch
      (emptyStore Nat) "repos_k" none 0 1000 42 rfl rfl (by decide)).2.1,
   (C3_confirmed_single_fetch defaultConfig constFetch countingFetch
      (emptyStore Nat) "repos_k" none 0 1000 42 rfl rfl (by decide)).2.2.1,
   (C3_confirmed_single_fetch defaultConfig constFetch countingFetch
      (emptyStore Nat) "repos_k" none 0 1000 42 rfl rfl (by decide)).2.2.2⟩

/-! ## C7 -/

/-- C7, counterexample: a `customTtl` override of `0` is falsy in
`customTtl || getDefaultTtlForKey(key)`, so the persisted ttl is the family
default (604800 for a `repos_` key), not the requested `0`. -/
theorem C7_counterexample :
    (setCache defaultConfig (emptyStore Nat) "repos_x" 42 (some 0) 5)
        "repos_x" = some ⟨42, 5, 604800⟩ ∧
    (604800 : Nat) ≠ 0 := by
  constructor
  · rfl
  · decide

/-- C7, amended: the persisted ttl equals `customTtl` whenever a NONZERO
override is given; an override of `0` — like no override — falls back to the
key-prefix family default (`7*24*60*60` for `repos_`-keys, `24*60*60` for
`prs_`-keys, and `7*24*60*60` for every other key, under the default
configuration).  The written value at the key is independent of the prior
store contents (the write overwrites). -/
theorem C7_amended_ttl_policy {α : Type} (st : Store α) (key : String)
    (data : α) (customTtl : Option Nat) (now : Nat) :
    (∀ m, customTtl = some m → m ≠ 0 →
      setCache defaultConfig st key data customTtl now (sanitizeCacheKey key)
        = some ⟨data, now, m⟩) ∧
    ((customTtl = none ∨ customTtl = some 0) →
      setCache defaultConfig st key data customTtl now (sanitizeCacheKey key)
        = some ⟨data, now,
            if strStartsWith key "repos_" then 7 * 24 * 60 * 60
            else if strStartsWith key "prs_" then 24 * 60 * 60
            else 7 * 24 * 60 * 60⟩) ∧
    (∀ st' : Store α,
      setCache defaultConfig st key data customTtl now (sanitizeCacheKey key)
        = setCache defaultConfig st' key data customTtl now
            (sanitizeCacheKey key)) := by
  refine ⟨?_, ?_, ?_⟩
  · rintro m rfl hm
    simp [setCache, jsOrNat, hm]
  · rintro (rfl | rfl) <;>
      simp [setCache, jsOrNat, getDefaultTtlForKey, defaultConfig]
  · intro st'
    simp [setCache]

/-- C7, witness: a `prs_` key with no override receives the pull-request
family default of 86400 seconds. -/
theorem C7_witness :
    setCache defaultConfig (emptyStore Nat) "prs_k" 3 none 7
        (sanitizeCacheKey "prs_k")
      = some ⟨3, 7,
          if strStartsWith "prs_k" "repos_" then 7 * 24 * 60 * 60
          else if strStartsWith "prs_k" "prs_" then 24 * 60 * 60
          else 7 * 24 * 60 * 60⟩ :=
  (C7_amended_ttl_policy (emptyStore Nat) "prs_k" 3 none 7).2.1 (Or.inl rfl)

/-! ## C5 -/

/-- C5, counterexample: the key derivation neither lower-cases organizations
nor collapses duplicated keyword tokens: `["Org"]` and `["org"]` produce
different keys, and keywords `"a,a,b"` and `"a,b"` produce different keys. -/
theorem C5_counterexample :
    repoSearchCacheKey ["Org"] none false
      ≠ repoSearchCacheKey ["org"] none false ∧
    repoSearchCacheKey ["o"] (some "a,a,b") false
      ≠ repoSearchCacheKey ["o"] (some "a,b") false := by
  constructor <;> decide

/-- C5, amended: `generateRepoSearchCacheKey` is case-SENSITIVE in
organizations and preserves duplicated keyword tokens: the letter case of an
organization appears verbatim in the key, and `"a,a,b"` keeps its repeated
token after normalization. -/
theorem C5_amended_case_and_duplicates :
    repoSearchCacheKey ["Org"] none false = "repos_Org__" ∧
    repoSearchCacheKey ["org"] none false = "repos_org__" ∧
    repoSearchCacheKey ["o"] (some "a,a,b") false = "repos_o_a,a,b_" ∧
    repoSearchCacheKey ["o"] (some "a,b") false = "repos_o_a,b_" := by
  refine ⟨?_, ?_, ?_, ?_⟩ <;> decide

/-! ## C8 -/

theorem lexLe_cons_iff {a b : Char} {as bs : List Char} :
    lexLe (a :: as) (b :: bs) = true ↔ a < b ∨ (a = b ∧ lexLe as bs = true) := by
  by_cases h1 : a < b
  · simp [lexLe, h1]
  · by_cases h2 : a = b
    · simp [lexLe, h1, h2]
    · simp [lexLe, h1, h2]

theorem lexLe_total : ∀ as bs : List Char,
    lexLe as bs = true ∨ lexLe bs as = true
  | [], _ => Or.inl rfl
  | _ :: _, [] => Or.inr rfl
  | a :: as, b :: bs => by
    rcases lt_trichotomy a b with h | h | h
    · exact Or.inl (lexLe_cons_iff.mpr (Or.inl h))
    · subst h
      rcases lexLe_total as bs with h' | h'
      · exact Or.inl (lexLe_cons_iff.mpr (Or.inr ⟨rfl, h'⟩))
      · exact Or.inr (lexLe_cons_iff.mpr (Or.inr ⟨rfl, h'⟩))
    · exact Or.inr (lexLe_cons_iff.mpr (Or.inl h))

theorem lexLe_trans : ∀ {as bs cs : List Char}, lexLe as bs = true →
    lexLe bs cs = true → lexLe as cs = true
  | [], _, _, _, _ => rfl
  | _ :: _, [], _, h1, _ => by simp [lexLe] at h1
  | _ :: _, _ :: _, [], _, h2 => by simp [lexLe] at h2
  | a :: as, b :: bs, c :: cs, h1, h2 => by
    rcases lexLe_cons_iff.mp h1 with hab | ⟨rfl, h1'⟩
    · rcases lexLe_cons_iff.mp h2 with hbc | ⟨rfl, _⟩
      · exact lexLe_cons_iff.mpr (Or.inl (lt_trans hab hbc))
      · exact lexLe_cons_iff.mpr (Or.inl hab)
    · rcases lexLe_cons_iff.mp h2 with hbc | ⟨rfl, h2'⟩
      · exact lexLe_cons_iff.mpr (Or.inl hbc)
      · exact lexLe_cons_iff.mpr (Or.inr ⟨rfl, lexLe_trans h1' h2'⟩)

theorem lexLe_antisymm : ∀ {as bs : List Char}, lexLe as bs = true →
    lexLe bs as = true → as = bs
  | [], [], _, _ => rfl
  | [], _ :: _, _, h2 => by simp [lexLe] at h2
  | _ :: _, [], h1, _ => by simp [lexLe] at h1
  | a :: as, b :: bs, h1, h2 => by
    rcases lexLe_cons_iff.mp h1 with hab | ⟨rfl, h1'⟩
    · rcases lexLe_cons_iff.mp h2 with hba | ⟨hba, _⟩
      · exact absurd hba (lt_asymm hab)
      · subst hba
        exact absurd hab (lt_irrefl b)
    · rcases lexLe_cons_iff.mp h2 with hba | ⟨_, h2'⟩
      · exact absurd hba (lt_irrefl a)
      · rw [lexLe_antisymm h1' h2']

instance : IsTotal String jsLe :=
  ⟨fun s t => lexLe_total s.data t.data⟩

instance : IsTrans String jsLe :=
  ⟨fun _ _ _ h1 h2 => lexLe_trans h1 h2⟩

instance : IsAntisymm String jsLe :=
  ⟨fun s t h1 h2 => by
    cases s
    cases t
    exact congrArg String.mk (lexLe_antisymm h1 h2)⟩

/-- Sorting is invariant under permutation of the input. -/
theorem jsSortStrings_perm_eq {l l' : List String} (h : l.Perm l') :
    jsSortStrings l = jsSortStrings l' :=
  List.eq_of_perm_of_sorted
    ((List.perm_insertionSort jsLe l).trans
      (h.trans (List.perm_insertionSort jsLe l').symm))
    (List.sorted_insertionSort jsLe l)
    (List.sorted_insertionSort jsLe l')

/-- C8, confirmed: the repository-search cache key is invariant under
permutation of the organization list, under permutation of the normalized
keyword tokens, and under whitespace padding or empty tokens in the keyword
string (the spec's `"a, ,b"` / `"b,a"` / `" a , b "` all agree). -/
theorem C8_confirmed_key_normalization :
    (∀ (orgs orgs' : List String) (kw : Option String) (user : Bool),
      orgs.Perm orgs' →
      repoSearchCacheKey orgs kw user = repoSearchCacheKey orgs' kw user) ∧
    (∀ (orgs : List String) (kw kw' : String) (user : Bool),
      (splitTrimFilter kw).Perm (splitTrimFilter kw') →
      repoSearchCacheKey orgs (some kw) user
        = repoSearchCacheKey orgs (some kw') user) ∧
    (repoSearchCacheKey ["o"] (some "a, ,b") false
        = repoSearchCacheKey ["o"] (some "b,a") false ∧
      repoSearchCacheKey ["o"] (some "a, ,b") false
        = repoSearchCacheKey ["o"] (some " a , b ") false) := by
  refine ⟨?_, ?_, by decide, by decide⟩
  · intro orgs orgs' kw user hperm
    unfold repoSearchCacheKey generateRepoSearchCacheKey
    rw [jsSortStrings_perm_eq hperm]
  · intro orgs kw kw' user hperm
    unfold repoSearchCacheKey generateRepoSearchCacheKey
    have hK : (if kw = "" then ""
          else String.intercalate "," (jsSortStrings (splitTrimFilter kw)))
        = (if kw' = "" then ""
          else String.intercalate "," (jsSortStrings (splitTrimFilter kw'))) := by
      have h0 : splitTrimFilter "" = [] := rfl
      by_cases h1 : kw = ""
      · subst h1
        rw [h0] at hperm
        rw [if_pos rfl]
        by_cases h2 : kw' = ""
        · rw [if_pos h2]
        · rw [if_neg h2]
          have hnil : splitTrimFilter kw' = [] := hperm.symm.eq_nil
          rw [hnil]
          rfl
      · rw [if_neg h1]
        by_cases h2 : kw' = ""
        · subst h2
          rw [h0] at hperm
          rw [if_pos rfl]
          have hnil : splitTrimFilter kw = [] := hperm.eq_nil
          rw [hnil]
          rfl
        · rw [if_neg h2, jsSortStrings_perm_eq hperm]
    simp only []
    rw [hK]

/-- C8, witness: permutation invariance at a concrete organization pair. -/
theorem C8_witness :
    repoSearchCacheKey ["b", "a"] none false
      = repoSearchCacheKey ["a", "b"] none false :=
  C8_confirmed_key_normalization.1 ["b", "a"] ["a", "b"] none false
    (List.Perm.swap "a" "b" [])

/-! ## C9 -/

/-- C9, confirmed: the worked example renders to exactly the documented
string, and for every filter object `buildSearchQuery` is the space-join of
the spec's clause list in its fixed order (scope, type, state, author,
assignee, labels, date-from, date-to, free text). -/
theorem C9_confirmed_query_builder :
    buildSearchQuery optsC9
      = "repo:o/r is:pr (is:open OR is:draft) author:u label:bug label:\"needs review\"" ∧
    ∀ o : PullRequestSearchOptions,
      buildSearchQuery o = String.intercalate " " (specClauseList o) := by
  constructor
  · decide
  · intro o
    rfl

/-! ## C10 -/

/-- C10, confirmed: with caching enabled (the default), the cache-key
derivation's in-place `organizations.sort()` runs before the fetch closure,
so the per-organization fetch loop issues queries in sorted order — the
sorted list, a permutation of the caller's input; with `useCache: false` the
original input order is preserved. -/
theorem C10_confirmed_sort_mutation (options : SearchOptions) :
    ((options.useCache = none ∨ options.useCache = some true) →
      searchRepositoriesFetchOrder options
        = fetchQueries
            { options with organizations := jsSortStrings options.organizations }
      ∧ (generateRepoSearchCacheKey options.organizations options.keywords
          options.includeCurrentUser).2 = jsSortStrings options.organizations
      ∧ List.Sorted jsLe (jsSortStrings options.organizations)
      ∧ (jsSortStrings options.organizations).Perm options.organizations) ∧
    (options.useCache = some false →
      searchRepositoriesFetchOrder options = fetchQueries options) := by
  constructor
  · intro h
    have huc : options.useCache.getD true = true := by
      rcases h with h | h <;> simp [h]
    refine ⟨?_, rfl, List.sorted_insertionSort jsLe _,
      List.perm_insertionSort jsLe _⟩
    unfold searchRepositoriesFetchOrder
    rw [if_pos huc]
    rfl
  · intro h
    unfold searchRepositoriesFetchOrder
    rw [h]
    rfl

/-- C10, witness: at a concrete unsorted input, caching visits the sorted
order and `useCache: false` visits the original order. -/
theorem C10_witness :
    searchRepositoriesFetchOrder optsC10
      = fetchQueries
          { optsC10 with organizations := jsSortStrings optsC10.organizations } ∧
    searchRepositoriesFetchOrder { optsC10 with useCache := some false }
      = fetchQueries { optsC10 with useCache := some false } :=
  ⟨((C10_confirmed_sort_mutation optsC10).1 (Or.inl rfl)).1,
    (C10_confirmed_sort_mutation { optsC10 with useCache := some false }).2 rfl⟩

end Pullke
